import Mathlib

/-
Verification of the order-book core in src/ALL_SHARES/bookdata.js.

The embedding is shallow: JS numbers holding prices become rationals (ℚ),
quantities become integers (Int), strings stay strings.  JS objects used as
maps become association lists in insertion order (JS objects preserve
insertion order for non-integer-like string keys, and every key used by the
code contains a brace or a dot, hence is not integer-like).  Because the
code mutates level records that are shared by reference between the side
maps and the sorted display arrays, rows live in an explicit heap
(`List Row`, a row id is an index) and maps/arrays hold row ids.

The reserved sentinel prices (Formatter_MarketPrices.BID / OFFER /
UNKNOWN_BID / UNKNOWN_OFFER) are configuration constants of the surrounding
system, so everything is parametric in a `MarketPrices` record.
-/

/-- Division on ℚ written with the explicit numerator/denominator formula.
`Rat.divInt` reduces inside the kernel while the field division of Mathlib
does not, so the embedding uses `qdiv`; `qdiv_eq_div` below identifies the
two, hence no generality is lost. -/
def qdiv (a b : ℚ) : ℚ := Rat.divInt (a.num * b.den) (a.den * b.num)

theorem qdiv_eq_div (a b : ℚ) : qdiv a b = a / b := (Rat.div_def' a b).symm

/-- Lexicographic comparison of char lists by code point; model of the JS
string `<` operator (code-unit order; identical on the ASCII venue codes the
book uses). -/
def chListLt : List Char → List Char → Bool
  | [], [] => false
  | [], _ :: _ => true
  | _ :: _, [] => false
  | a :: as, b :: bs =>
    if a.toNat < b.toNat then true
    else if b.toNat < a.toNat then false
    else chListLt as bs

/-- JS string comparison `lhs < rhs` used by BookData.compareCommon. -/
def strLt (a b : String) : Bool := chListLt a.data b.data

/-- Reserved sentinel prices of the surrounding system
(Formatter_MarketPrices).  Their exact values are configuration constants
that are not part of bookdata.js, so the development is parametric in them. -/
structure MarketPrices where
  BID : ℚ
  OFFER : ℚ
  UNKNOWN_BID : ℚ
  UNKNOWN_OFFER : ℚ
deriving DecidableEq

/-- Level record as built by BookData._createRow (bookdata.js 190-202):
price, quantity, venue, the derived vbbo and cumulative quantity, and the
composite venue/level key. -/
structure Row where
  price : ℚ
  qty : Int
  venue : String
  vbbo : ℚ
  cumQty : Int
  key : String
deriving DecidableEq

/-- Row returned by a heap lookup at an out-of-range id.  Its venue is the
empty string so that record updates that only clear the venue fix it. -/
def dfRow : Row := { price := 0, qty := 0, venue := "", vbbo := 0, cumQty := 0, key := "" }

/-- Heap lookup: row stored under a row id. -/
def rowAt (heap : List Row) (id : Nat) : Row := heap.getD id dfRow

/-- State of BookData.VBBOMarkerOrderChecker (bookdata.js 371-377): whether
the current row is a market order, whether the last market order seen was a
bid, and whether any market order has been seen in this pass. -/
structure VBBOMarkerOrderChecker where
  isMarkerOrder : Bool
  isBidMarkerOrder : Bool
  hasMarkerOrder : Bool
deriving DecidableEq

/-- Initial checker state: all three flags false (bookdata.js 374-377). -/
def newChecker : VBBOMarkerOrderChecker := ⟨false, false, false⟩

/-- checkMarketOrder (bookdata.js 379-399): switch on the price.  A BID
sentinel sets all three flags, an OFFER sentinel sets marker/has and clears
the bid polarity, any other price only clears `isMarkerOrder` (the polarity
and the ever-seen flag are sticky). -/
def checkMarketOrder (mp : MarketPrices) (c : VBBOMarkerOrderChecker) (price : ℚ) :
    VBBOMarkerOrderChecker :=
  if price = mp.BID then ⟨true, true, true⟩
  else if price = mp.OFFER then ⟨true, false, true⟩
  else { c with isMarkerOrder := false }

/-- Checker state after observing a list of prices in order. -/
def chkFold (mp : MarketPrices) (c : VBBOMarkerOrderChecker) (ps : List ℚ) :
    VBBOMarkerOrderChecker :=
  ps.foldl (checkMarketOrder mp) c

/-- calculateRowPrice (bookdata.js 405-428): per-level VBBO price.  With a
market order seen, a marker row shows its own price and any other row shows
the UNKNOWN sentinel of the sticky polarity; otherwise the guarded
volume-weighted quotient. -/
def calculateRowPrice (mp : MarketPrices) (c : VBBOMarkerOrderChecker)
    (price numerator denominator : ℚ) : ℚ :=
  if c.hasMarkerOrder then
    if c.isMarkerOrder then price
    else if c.isBidMarkerOrder then mp.UNKNOWN_BID else mp.UNKNOWN_OFFER
  else if denominator > 0 then qdiv numerator denominator else 0

/-- calculatePrice (bookdata.js 433-446): VWAP price.  With a market order
seen, the BID or OFFER sentinel of the sticky polarity; otherwise the
guarded volume-weighted quotient. -/
def calculatePrice (mp : MarketPrices) (c : VBBOMarkerOrderChecker)
    (numerator denominator : ℚ) : ℚ :=
  if c.hasMarkerOrder then
    if c.isBidMarkerOrder then mp.BID else mp.OFFER
  else if denominator > 0 then qdiv numerator denominator else 0

/-- BookData.compareCommon (bookdata.js 463-486): larger quantity first; on a
tie the venue XEQT sorts first; otherwise the boolean `lhs.venue < rhs.venue`
is returned as a number (1 or 0). -/
def compareCommon (lhs rhs : Row) : ℚ :=
  let result : ℚ := ((rhs.qty - lhs.qty : Int) : ℚ)
  if result = 0 then
    if lhs.venue = "XEQT" then -1
    else if rhs.venue = "XEQT" then 1
    else if strLt lhs.venue rhs.venue then 1 else 0
  else result

/-- BookData._compareBuy (bookdata.js 218-249): zero-priced (market) levels
first, then higher price first, ties via compareCommon. -/
def compareBuy (lhs rhs : Row) : ℚ :=
  if lhs.price = 0 ∧ rhs.price = 0 then compareCommon lhs rhs
  else if lhs.price = 0 then -1
  else if rhs.price = 0 then 1
  else
    let result := rhs.price - lhs.price
    if result = 0 then compareCommon lhs rhs else result

/-- BookData._compareSell (bookdata.js 252-266): lower price first, ties via
compareCommon. -/
def compareSell (lhs rhs : Row) : ℚ :=
  let result := lhs.price - rhs.price
  if result = 0 then compareCommon lhs rhs else result

/-- Result record of _calculateVwapForQty (bookdata.js 362-364). -/
structure VwapResult where
  qty : Int
  price : ℚ
  level : Int
deriving DecidableEq

/-- State threaded through the loop of _calculateVwapForQty. -/
structure VwapScan where
  checker : VBBOMarkerOrderChecker
  used : Int
  value : ℚ
  level : Int
deriving DecidableEq

/-- Loop of _calculateVwapForQty (bookdata.js 337-360).  Every row is
observed by the checker; a row contributes fill only while `remaining > 0`
and its quantity is positive.  The JS guard `rowPrice !== NaN` is identically
true (strict inequality against NaN always holds), so it adds nothing. -/
def vwapGo (mp : MarketPrices) (c : VBBOMarkerOrderChecker) (remaining used : Int)
    (value : ℚ) (level : Int) (index : Nat) : List Row → VwapScan
  | [] => ⟨c, used, value, level⟩
  | r :: rs =>
    let c2 := checkMarketOrder mp c r.price
    if remaining > 0 ∧ r.qty > 0 then
      let qtyAdjust := if remaining > r.qty then r.qty else remaining
      vwapGo mp c2 (remaining - qtyAdjust) (used + qtyAdjust)
        (value + (qtyAdjust : ℚ) * r.price) (index : Int) (index + 1) rs
    else
      vwapGo mp c2 remaining used value level (index + 1) rs

/-- _calculateVwapForQty (bookdata.js 324-365) on the dereferenced sorted
rows: walk the whole sequence, then report consumed quantity, the checker
price, and the last contributing level (-1 when none contributed). -/
def calculateVwapForQty (mp : MarketPrices) (qty : Int) (sortedRows : List Row) : VwapResult :=
  let s := vwapGo mp newChecker qty 0 0 (-1) 0 sortedRows
  ⟨s.used, calculatePrice mp s.checker s.value (s.used : ℚ), s.level⟩

/-- Loop of _calculateVBBO (bookdata.js 278-293) as a function on row values:
observe each price, accumulate quantity and notional, and write cumulative
quantity and the checker row price onto the row. -/
def vbboGo (mp : MarketPrices) (c : VBBOMarkerOrderChecker) (cumQty : Int) (value : ℚ) :
    List Row → List Row
  | [] => []
  | r :: rs =>
    let c2 := checkMarketOrder mp c r.price
    let cq := cumQty + r.qty
    let v := value + r.price * (r.qty : ℚ)
    { r with cumQty := cq, vbbo := calculateRowPrice mp c2 r.price v (cq : ℚ) } ::
      vbboGo mp c2 cq v rs

/-- _calculateVBBO pass over already dereferenced rows, starting from a fresh
checker and zero accumulators (bookdata.js 269-276). -/
def vbboRows (mp : MarketPrices) (rows : List Row) : List Row :=
  vbboGo mp newChecker 0 0 rows

/- List helpers used throughout (heap reads and writes). -/

theorem getD_append_lt {α : Type} (l1 l2 : List α) (i : Nat) (d : α) (h : i < l1.length) :
    (l1 ++ l2).getD i d = l1.getD i d := by
  induction l1 generalizing i with
  | nil => simp at h
  | cons a as ih =>
    cases i with
    | zero => rfl
    | succ n => simpa using ih n (by simpa using h)

theorem getD_append_len {α : Type} (l : List α) (a d : α) :
    (l ++ [a]).getD l.length d = a := by
  induction l with
  | nil => rfl
  | cons x xs ih =>
    simp only [List.cons_append, List.length_cons, List.getD_cons_succ]
    exact ih

theorem set_getD_self {α : Type} (l : List α) (i : Nat) (d : α) (h : i < l.length) :
    l.set i (l.getD i d) = l := by
  induction l generalizing i with
  | nil => rfl
  | cons a as ih =>
    cases i with
    | zero => rfl
    | succ n =>
      rw [List.getD_cons_succ]
      exact congrArg (List.cons a) (ih n (by simpa using h))

theorem getD_set_self {α : Type} (l : List α) (i : Nat) (a d : α) (h : i < l.length) :
    (l.set i a).getD i d = a := by
  induction l generalizing i with
  | nil => simp at h
  | cons x xs ih =>
    cases i with
    | zero => rfl
    | succ n => simpa using ih n (by simpa using h)

theorem getD_set_ne {α : Type} (l : List α) (i j : Nat) (a d : α) (h : i ≠ j) :
    (l.set i a).getD j d = l.getD j d := by
  induction l generalizing i j with
  | nil => rfl
  | cons x xs ih =>
    cases i with
    | zero =>
      cases j with
      | zero => exact absurd rfl h
      | succ m => rfl
    | succ n =>
      cases j with
      | zero => rfl
      | succ m => simpa using ih n m (by omega)

theorem getD_take {α : Type} (l : List α) (i n : Nat) (d : α) (h : i < n) :
    (l.take n).getD i d = l.getD i d := by
  induction l generalizing i n with
  | nil => simp
  | cons a as ih =>
    cases n with
    | zero => omega
    | succ m =>
      cases i with
      | zero => rfl
      | succ k => simpa using ih k m (by omega)

theorem getD_mem {α : Type} (l : List α) (i : Nat) (d : α) (h : i < l.length) :
    l.getD i d ∈ l := by
  induction l generalizing i with
  | nil => simp at h
  | cons a as ih =>
    cases i with
    | zero => exact List.mem_cons_self a as
    | succ n => exact List.mem_cons_of_mem a (ih n (by simpa using h))

/- Facts about the market-order checker. -/

theorem chkFold_nil (mp : MarketPrices) (c : VBBOMarkerOrderChecker) : chkFold mp c [] = c := rfl

theorem chkFold_cons (mp : MarketPrices) (c : VBBOMarkerOrderChecker) (p : ℚ) (ps : List ℚ) :
    chkFold mp c (p :: ps) = chkFold mp (checkMarketOrder mp c p) ps := rfl

theorem chkFold_append (mp : MarketPrices) (c : VBBOMarkerOrderChecker) (l1 l2 : List ℚ) :
    chkFold mp c (l1 ++ l2) = chkFold mp (chkFold mp c l1) l2 :=
  List.foldl_append _ _ _ _

theorem checkMarketOrder_nonmarker (mp : MarketPrices) (c : VBBOMarkerOrderChecker) (p : ℚ)
    (h1 : p ≠ mp.BID) (h2 : p ≠ mp.OFFER) :
    checkMarketOrder mp c p = ⟨false, c.isBidMarkerOrder, c.hasMarkerOrder⟩ := by
  simp [checkMarketOrder, h1, h2]

theorem checkMarketOrder_marker_has (mp : MarketPrices) (c : VBBOMarkerOrderChecker) (p : ℚ)
    (h : p = mp.BID ∨ p = mp.OFFER) :
    (checkMarketOrder mp c p).hasMarkerOrder = true := by
  unfold checkMarketOrder
  by_cases h1 : p = mp.BID
  · simp [h1]
  · rcases h with h | h
    · exact absurd h h1
    · rw [if_neg h1, if_pos h]

theorem checkMarketOrder_isMarker (mp : MarketPrices) (c : VBBOMarkerOrderChecker) (p : ℚ) :
    (checkMarketOrder mp c p).isMarkerOrder =
      (decide (p = mp.BID) || decide (p = mp.OFFER)) := by
  unfold checkMarketOrder
  by_cases h1 : p = mp.BID
  · simp [h1]
  · by_cases h2 : p = mp.OFFER
    · rw [if_neg h1, if_pos h2]; simp [h1, h2]
    · rw [if_neg h1, if_neg h2]; simp [h1, h2]

theorem checkMarketOrder_has_sticky (mp : MarketPrices) (c : VBBOMarkerOrderChecker) (p : ℚ)
    (h : c.hasMarkerOrder = true) :
    (checkMarketOrder mp c p).hasMarkerOrder = true := by
  unfold checkMarketOrder
  by_cases h1 : p = mp.BID
  · simp [h1]
  · by_cases h2 : p = mp.OFFER
    · rw [if_neg h1, if_pos h2]
    · rw [if_neg h1, if_neg h2]; exact h

theorem chkFold_has_of_has (mp : MarketPrices) (ps : List ℚ) (c : VBBOMarkerOrderChecker)
    (h : c.hasMarkerOrder = true) : (chkFold mp c ps).hasMarkerOrder = true := by
  induction ps generalizing c with
  | nil => exact h
  | cons p ps ih => exact ih _ (checkMarketOrder_has_sticky mp c p h)

theorem chkFold_has_of_mem (mp : MarketPrices) (ps : List ℚ) (c : VBBOMarkerOrderChecker)
    (p : ℚ) (hp : p ∈ ps) (hm : p = mp.BID ∨ p = mp.OFFER) :
    (chkFold mp c ps).hasMarkerOrder = true := by
  induction ps generalizing c with
  | nil => simp at hp
  | cons q qs ih =>
    rcases List.mem_cons.mp hp with h | h
    · rw [chkFold_cons]
      exact chkFold_has_of_has mp qs _ (checkMarketOrder_marker_has mp c q (h ▸ hm))
    · exact ih _ h

theorem chkFold_clean (mp : MarketPrices) (ps : List ℚ)
    (h : ∀ p ∈ ps, p ≠ mp.BID ∧ p ≠ mp.OFFER) :
    chkFold mp newChecker ps = newChecker := by
  induction ps with
  | nil => rfl
  | cons p ps ih =>
    rw [chkFold_cons,
      checkMarketOrder_nonmarker mp newChecker p (h p (List.mem_cons_self p ps)).1
        (h p (List.mem_cons_self p ps)).2]
    exact ih (fun q hq => h q (List.mem_cons_of_mem p hq))

theorem chkFold_isBid_stays_true (mp : MarketPrices) (ps : List ℚ)
    (c : VBBOMarkerOrderChecker) (hc : c.isBidMarkerOrder = true) (hno : mp.OFFER ∉ ps) :
    (chkFold mp c ps).isBidMarkerOrder = true := by
  induction ps generalizing c with
  | nil => exact hc
  | cons p ps ih =>
    have hpoff : p ≠ mp.OFFER := fun h => hno (h ▸ List.mem_cons_self p ps)
    rw [chkFold_cons]
    by_cases h1 : p = mp.BID
    · exact ih _ (by simp [checkMarketOrder, h1]) (fun h => hno (List.mem_cons_of_mem p h))
    · exact ih _ (by simp [checkMarketOrder, h1, hpoff, hc])
        (fun h => hno (List.mem_cons_of_mem p h))

theorem chkFold_isBid_true (mp : MarketPrices) (ps : List ℚ) (c : VBBOMarkerOrderChecker)
    (hBID : mp.BID ∈ ps) (hno : mp.OFFER ∉ ps) :
    (chkFold mp c ps).isBidMarkerOrder = true := by
  induction ps generalizing c with
  | nil => simp at hBID
  | cons p ps ih =>
    rw [chkFold_cons]
    by_cases h1 : p = mp.BID
    · exact chkFold_isBid_stays_true mp ps _ (by simp [checkMarketOrder, h1])
        (fun h => hno (List.mem_cons_of_mem p h))
    · have : mp.BID ∈ ps := by
        rcases List.mem_cons.mp hBID with h | h
        · exact absurd h.symm h1
        · exact h
      exact ih _ this (fun h => hno (List.mem_cons_of_mem p h))

theorem chkFold_isBid_stays_false (mp : MarketPrices) (ps : List ℚ)
    (c : VBBOMarkerOrderChecker) (hc : c.isBidMarkerOrder = false) (hno : mp.BID ∉ ps) :
    (chkFold mp c ps).isBidMarkerOrder = false := by
  induction ps generalizing c with
  | nil => exact hc
  | cons p ps ih =>
    have hpbid : p ≠ mp.BID := fun h => hno (h ▸ List.mem_cons_self p ps)
    rw [chkFold_cons]
    by_cases h2 : p = mp.OFFER
    · exact ih _ (by unfold checkMarketOrder; rw [if_neg hpbid, if_pos h2])
        (fun h => hno (List.mem_cons_of_mem p h))
    · exact ih _ (by unfold checkMarketOrder; rw [if_neg hpbid, if_neg h2]; exact hc)
        (fun h => hno (List.mem_cons_of_mem p h))

theorem chkFold_isBid_false (mp : MarketPrices) (ps : List ℚ) (c : VBBOMarkerOrderChecker)
    (hOFF : mp.OFFER ∈ ps) (hno : mp.BID ∉ ps) :
    (chkFold mp c ps).isBidMarkerOrder = false := by
  induction ps generalizing c with
  | nil => simp at hOFF
  | cons p ps ih =>
    have hpbid : p ≠ mp.BID := fun h => hno (h ▸ List.mem_cons_self p ps)
    rw [chkFold_cons]
    by_cases h2 : p = mp.OFFER
    · exact chkFold_isBid_stays_false mp ps _
        (by unfold checkMarketOrder; rw [if_neg hpbid, if_pos h2])
        (fun h => hno (List.mem_cons_of_mem p h))
    · have : mp.OFFER ∈ ps := by
        rcases List.mem_cons.mp hOFF with h | h
        · exact absurd h.symm h2
        · exact h
      exact ih _ this (fun h => hno (List.mem_cons_of_mem p h))

/-- C8 witness market prices. -/
def mpW : MarketPrices := ⟨-1, 999999, -2, 999998⟩

/-- C8: when no market-order sentinel has been observed
(`hasMarkerOrder = false`), both weighted-price computations are guarded:
they return the quotient numerator/denominator only when the denominator is
strictly positive and return 0 otherwise (in particular at denominator 0),
so the division branch is never taken with a zero denominator and no error
is propagated (both functions are total). -/
theorem c8_division_guarded (mp : MarketPrices) (c : VBBOMarkerOrderChecker)
    (price num den : ℚ) (h : c.hasMarkerOrder = false) :
    (0 < den → calculateRowPrice mp c price num den = num / den ∧
      calculatePrice mp c num den = num / den) ∧
    (¬ 0 < den → calculateRowPrice mp c price num den = 0 ∧
      calculatePrice mp c num den = 0) := by
  constructor
  · intro hden
    constructor
    · simp [calculateRowPrice, h, hden, qdiv_eq_div]
    · simp [calculatePrice, h, hden, qdiv_eq_div]
  · intro hden
    constructor
    · simp [calculateRowPrice, h, hden]
    · simp [calculatePrice, h, hden]

/-- C8 witness: at denominator 0 and a clean checker both functions return 0. -/
theorem c8_division_guarded_witness :
    calculateRowPrice mpW newChecker 5 10 0 = 0 ∧ calculatePrice mpW newChecker 10 0 = 0 :=
  (c8_division_guarded mpW newChecker 5 10 0 rfl).2 (by decide)

/-- C3: the common tie-break comparator orders larger quantity first (a
negative result puts lhs first in a JS sort); on equal quantities the
preferred venue XEQT sorts first regardless of alphabetical order; otherwise
the venue comparison returns the boolean `lhs.venue < rhs.venue` as a number,
hence 1 or 0 and never a negative value for equal-quantity, non-preferred
pairs. -/
theorem c3_compareCommon_spec (lhs rhs : Row) :
    (lhs.qty ≠ rhs.qty → compareCommon lhs rhs = ((rhs.qty - lhs.qty : Int) : ℚ)) ∧
    (rhs.qty < lhs.qty → compareCommon lhs rhs < 0) ∧
    (lhs.qty < rhs.qty → 0 < compareCommon lhs rhs) ∧
    (lhs.qty = rhs.qty → lhs.venue = "XEQT" → compareCommon lhs rhs = -1) ∧
    (lhs.qty = rhs.qty → lhs.venue ≠ "XEQT" → rhs.venue = "XEQT" →
      compareCommon lhs rhs = 1) ∧
    (lhs.qty = rhs.qty → lhs.venue ≠ "XEQT" → rhs.venue ≠ "XEQT" →
      compareCommon lhs rhs = (if strLt lhs.venue rhs.venue then 1 else 0) ∧
      0 ≤ compareCommon lhs rhs) := by
  have hunf : compareCommon lhs rhs =
      if ((rhs.qty - lhs.qty : Int) : ℚ) = 0 then
        if lhs.venue = "XEQT" then -1
        else if rhs.venue = "XEQT" then 1
        else if strLt lhs.venue rhs.venue then 1 else 0
      else ((rhs.qty - lhs.qty : Int) : ℚ) := rfl
  have hiff : (((rhs.qty - lhs.qty : Int) : ℚ) = 0) ↔ lhs.qty = rhs.qty := by
    rw [Int.cast_eq_zero, sub_eq_zero, eq_comm]
  refine ⟨?_, ?_, ?_, ?_, ?_, ?_⟩
  · intro hne
    rw [hunf, if_neg (fun h => hne (hiff.mp h))]
  · intro hlt
    have hneg : ((rhs.qty - lhs.qty : Int) : ℚ) < 0 := by
      have h2 : (rhs.qty - lhs.qty : Int) < 0 := by omega
      exact_mod_cast h2
    rw [hunf, if_neg (ne_of_lt hneg)]
    exact hneg
  · intro hlt
    have hpos : 0 < ((rhs.qty - lhs.qty : Int) : ℚ) := by
      have h2 : 0 < (rhs.qty - lhs.qty : Int) := by omega
      exact_mod_cast h2
    rw [hunf, if_neg (ne_of_gt hpos)]
    exact hpos
  · intro heq hX
    rw [hunf, if_pos (hiff.mpr heq), if_pos hX]
  · intro heq hlX hrX
    rw [hunf, if_pos (hiff.mpr heq), if_neg hlX, if_pos hrX]
  · intro heq hlX hrX
    have hval : compareCommon lhs rhs = if strLt lhs.venue rhs.venue then 1 else 0 := by
      rw [hunf, if_pos (hiff.mpr heq), if_neg hlX, if_neg hrX]
    refine ⟨hval, ?_⟩
    rw [hval]
    by_cases hs : strLt lhs.venue rhs.venue
    · rw [if_pos hs]; norm_num
    · rw [if_neg hs]

/-- C3 witness: two equal-quantity rows on non-preferred venues with the left
venue lexicographically smaller compare as 1 (never negative). -/
theorem c3_compareCommon_spec_witness :
    compareCommon ⟨10, 5, "AQXE", 0, 0, "a"⟩ ⟨10, 5, "BATE", 0, 0, "b"⟩ = 1 := by
  have h := (c3_compareCommon_spec ⟨10, 5, "AQXE", 0, 0, "a"⟩ ⟨10, 5, "BATE", 0, 0, "b"⟩).2.2.2.2.2
  rw [(h rfl (by decide) (by decide)).1]
  decide

/- VBBO pass: the row written at position j carries the checker price for the
checker state after observing the prices of rows 0..j. -/

theorem vbboGo_getD (mp : MarketPrices) (rows : List Row) (c : VBBOMarkerOrderChecker)
    (cq0 : Int) (v0 : ℚ) (j : Nat) (hj : j < rows.length) :
    ∃ (cq2 : Int) (v2 : ℚ), (vbboGo mp c cq0 v0 rows).getD j dfRow =
      { rows.getD j dfRow with
        cumQty := cq2,
        vbbo := calculateRowPrice mp (chkFold mp c ((rows.take (j + 1)).map Row.price))
          (rows.getD j dfRow).price v2 (cq2 : ℚ) } := by
  induction rows generalizing c cq0 v0 j with
  | nil => simp at hj
  | cons r rs ih =>
    cases j with
    | zero =>
      refine ⟨cq0 + r.qty, v0 + r.price * (r.qty : ℚ), ?_⟩
      simp [vbboGo, chkFold]
    | succ n =>
      obtain ⟨cq2, v2, hh⟩ := ih (checkMarketOrder mp c r.price) (cq0 + r.qty)
        (v0 + r.price * (r.qty : ℚ)) n (by simpa using hj)
      refine ⟨cq2, v2, ?_⟩
      simpa [vbboGo, chkFold] using hh

/-- Position-indexed membership in a mapped take-prefix. -/
theorem price_mem_take_map (rows : List Row) (i n : Nat) (hi : i < rows.length) (hin : i < n) :
    (rows.getD i dfRow).price ∈ (rows.take n).map Row.price := by
  have h1 : i < (rows.take n).length := by
    rw [List.length_take]; omega
  have h2 : (rows.take n).getD i dfRow = rows.getD i dfRow := getD_take rows i n dfRow hin
  exact h2 ▸ List.mem_map_of_mem Row.price (getD_mem _ i dfRow h1)

/-- Every element of a mapped take-prefix is the price of some row at a
position below the cut. -/
theorem mem_take_map_price (rows : List Row) (n : Nat) (x : ℚ)
    (hx : x ∈ (rows.take n).map Row.price) :
    ∃ k, k < n ∧ k < rows.length ∧ (rows.getD k dfRow).price = x := by
  obtain ⟨r, hr, hpx⟩ := List.mem_map.mp hx
  obtain ⟨⟨k, hk⟩, hget⟩ := List.mem_iff_get.mp hr
  have hkn : k < n := by
    have := hk; rw [List.length_take] at this; omega
  have hkl : k < rows.length := by
    have := hk; rw [List.length_take] at this; omega
  refine ⟨k, hkn, hkl, ?_⟩
  have hgd : (rows.take n).getD k dfRow = r := by
    rw [List.getD_eq_getElem?_getD, List.getElem?_eq_getElem hk]
    simpa using congrArg some hget
  rw [← getD_take rows k n dfRow hkn, hgd, hpx]

/-- Take one more element: the prefix of length j+1 is the prefix of length j
followed by the element at j. -/
theorem take_succ_getD {α : Type} (l : List α) (j : Nat) (d : α) (hj : j < l.length) :
    l.take (j + 1) = l.take j ++ [l.getD j d] := by
  induction l generalizing j with
  | nil => simp at hj
  | cons a as ih =>
    cases j with
    | zero => rfl
    | succ n =>
      have := ih n (by simpa using hj)
      simp only [List.take_succ_cons, List.getD_cons_succ, this, List.cons_append]

/-- C1: during a single VBBO pass, once a marker sentinel has been observed
at row i, the tracker state after every later row j still has
`hasMarkerOrder` (it never returns to the clean state within the pass); row
j gets its own price as vbbo when it is itself a marker, and otherwise gets
the UNKNOWN sentinel selected by the sticky polarity — UNKNOWN-BID after a
BID marker (resp. UNKNOWN-OFFER after an OFFER marker) as long as no marker
of the opposite polarity has been seen. -/
theorem c1_vbbo_sticky_taint (mp : MarketPrices) (rows : List Row) (i j : Nat)
    (hij : i < j) (hj : j < rows.length)
    (hmark : (rows.getD i dfRow).price = mp.BID ∨ (rows.getD i dfRow).price = mp.OFFER) :
    (chkFold mp newChecker ((rows.take (j + 1)).map Row.price)).hasMarkerOrder = true ∧
    ((rows.getD j dfRow).price = mp.BID ∨ (rows.getD j dfRow).price = mp.OFFER →
      ((vbboRows mp rows).getD j dfRow).vbbo = (rows.getD j dfRow).price) ∧
    ((rows.getD j dfRow).price ≠ mp.BID → (rows.getD j dfRow).price ≠ mp.OFFER →
      ((vbboRows mp rows).getD j dfRow).vbbo =
        (if (chkFold mp newChecker ((rows.take (j + 1)).map Row.price)).isBidMarkerOrder
          then mp.UNKNOWN_BID else mp.UNKNOWN_OFFER)) ∧
    ((rows.getD i dfRow).price = mp.BID →
      (∀ k, k ≤ j → (rows.getD k dfRow).price ≠ mp.OFFER) →
      (rows.getD j dfRow).price ≠ mp.BID →
      ((vbboRows mp rows).getD j dfRow).vbbo = mp.UNKNOWN_BID) ∧
    ((rows.getD i dfRow).price = mp.OFFER →
      (∀ k, k ≤ j → (rows.getD k dfRow).price ≠ mp.BID) →
      (rows.getD j dfRow).price ≠ mp.OFFER →
      ((vbboRows mp rows).getD j dfRow).vbbo = mp.UNKNOWN_OFFER) := by
  have hi : i < rows.length := lt_trans hij hj
  have hmem : (rows.getD i dfRow).price ∈ (rows.take (j + 1)).map Row.price :=
    price_mem_take_map rows i (j + 1) hi (by omega)
  have hA : (chkFold mp newChecker ((rows.take (j + 1)).map Row.price)).hasMarkerOrder = true :=
    chkFold_has_of_mem mp _ newChecker _ hmem hmark
  obtain ⟨cq2, v2, hrow⟩ := vbboGo_getD mp rows newChecker 0 0 j hj
  have hsplit : chkFold mp newChecker ((rows.take (j + 1)).map Row.price) =
      checkMarketOrder mp (chkFold mp newChecker ((rows.take j).map Row.price))
        (rows.getD j dfRow).price := by
    rw [take_succ_getD rows j dfRow hj, List.map_append, chkFold_append]
    rfl
  have hB : (rows.getD j dfRow).price = mp.BID ∨ (rows.getD j dfRow).price = mp.OFFER →
      ((vbboRows mp rows).getD j dfRow).vbbo = (rows.getD j dfRow).price := by
    intro hm
    have hisM : (chkFold mp newChecker ((rows.take (j + 1)).map Row.price)).isMarkerOrder
        = true := by
      rw [hsplit, checkMarketOrder_isMarker]
      simp only [Bool.or_eq_true, decide_eq_true_eq]
      exact hm
    show ((vbboGo mp newChecker 0 0 rows).getD j dfRow).vbbo = _
    rw [hrow]
    show calculateRowPrice mp (chkFold mp newChecker ((rows.take (j + 1)).map Row.price))
      (rows.getD j dfRow).price v2 (cq2 : ℚ) = _
    unfold calculateRowPrice
    rw [if_pos hA, if_pos hisM]
  have hC : (rows.getD j dfRow).price ≠ mp.BID → (rows.getD j dfRow).price ≠ mp.OFFER →
      ((vbboRows mp rows).getD j dfRow).vbbo =
        (if (chkFold mp newChecker ((rows.take (j + 1)).map Row.price)).isBidMarkerOrder
          then mp.UNKNOWN_BID else mp.UNKNOWN_OFFER) := by
    intro h1 h2
    have hisM : (chkFold mp newChecker ((rows.take (j + 1)).map Row.price)).isMarkerOrder
        = false := by
      rw [hsplit, checkMarketOrder_isMarker]
      simp only [Bool.or_eq_false_iff, decide_eq_false_iff_not]
      exact ⟨h1, h2⟩
    show ((vbboGo mp newChecker 0 0 rows).getD j dfRow).vbbo = _
    rw [hrow]
    show calculateRowPrice mp (chkFold mp newChecker ((rows.take (j + 1)).map Row.price))
      (rows.getD j dfRow).price v2 (cq2 : ℚ) = _
    unfold calculateRowPrice
    rw [if_pos hA, if_neg (by rw [hisM]; exact Bool.false_ne_true)]
  refine ⟨hA, hB, hC, ?_, ?_⟩
  · intro hbid hnoOff hjB
    have hjO : (rows.getD j dfRow).price ≠ mp.OFFER := hnoOff j le_rfl
    rw [hC hjB hjO]
    have hbmem : mp.BID ∈ (rows.take (j + 1)).map Row.price := hbid ▸ hmem
    have hno : mp.OFFER ∉ (rows.take (j + 1)).map Row.price := by
      intro hoff
      obtain ⟨k, hkn, hkl, hkp⟩ := mem_take_map_price rows (j + 1) mp.OFFER hoff
      exact hnoOff k (by omega) hkp
    rw [if_pos (chkFold_isBid_true mp _ newChecker hbmem hno)]
  · intro hoff hnoBid hjO
    have hjB : (rows.getD j dfRow).price ≠ mp.BID := hnoBid j le_rfl
    rw [hC hjB hjO]
    have homem : mp.OFFER ∈ (rows.take (j + 1)).map Row.price := hoff ▸ hmem
    have hno : mp.BID ∉ (rows.take (j + 1)).map Row.price := by
      intro hbid
      obtain ⟨k, hkn, hkl, hkp⟩ := mem_take_map_price rows (j + 1) mp.BID hbid
      exact hnoBid k (by omega) hkp
    rw [if_neg (by rw [chkFold_isBid_false mp _ newChecker homem hno]; exact Bool.false_ne_true)]

/-- Market prices used by the C1/C2 witnesses: BID marker price 0 (an
auction market order), OFFER marker 999999. -/
def mpB : MarketPrices := ⟨0, 999999, -1, -2⟩

/-- Rows for the C1 witness: a bid market order followed by a priced level. -/
def c1Rows : List Row :=
  [⟨0, 50, "M", 0, 0, "m"⟩, ⟨100, 10, "AQXE", 0, 0, "a"⟩]

/-- C1 witness: with a BID marker at row 0, the tracker is tainted at row 1
and the priced row 1 receives UNKNOWN-BID as its vbbo. -/
theorem c1_vbbo_sticky_taint_witness :
    (chkFold mpB newChecker ((c1Rows.take 2).map Row.price)).hasMarkerOrder = true ∧
    ((vbboRows mpB c1Rows).getD 1 dfRow).vbbo = mpB.UNKNOWN_BID := by
  have h := c1_vbbo_sticky_taint mpB c1Rows 0 1 (by decide) (by decide) (Or.inl (by decide))
  exact ⟨h.1, h.2.2.2.1 (by decide) (by decide) (by decide)⟩

/- VWAP pass: the final checker state folds over the prices of ALL rows,
whether or not they contributed fill. -/

theorem vwapGo_checker (mp : MarketPrices) (rows : List Row) (c : VBBOMarkerOrderChecker)
    (rem used : Int) (val : ℚ) (lvl : Int) (idx : Nat) :
    (vwapGo mp c rem used val lvl idx rows).checker = chkFold mp c (rows.map Row.price) := by
  induction rows generalizing c rem used val lvl idx with
  | nil => rfl
  | cons r rs ih =>
    by_cases h : rem > 0 ∧ r.qty > 0
    · simp only [vwapGo, if_pos h, List.map_cons, chkFold_cons]
      exact ih _ _ _ _ _ _
    · simp only [vwapGo, if_neg h, List.map_cons, chkFold_cons]
      exact ih _ _ _ _ _ _

/-- C2: the VWAP computation folds the tracker over the price of every row of
the sorted sequence (not just rows that contributed fill), and whenever any
row anywhere in the sequence carries a marker sentinel price, the returned
price is the BID or OFFER sentinel selected by the sticky polarity of the
full-sequence fold — never the UNKNOWN variant and never a computed
volume-weighted price — regardless of the requested quantity. -/
theorem c2_vwap_market_forces_sentinel (mp : MarketPrices) (qty : Int) (rows : List Row)
    (h : ∃ r ∈ rows, r.price = mp.BID ∨ r.price = mp.OFFER) :
    (calculateVwapForQty mp qty rows).price =
      (if (chkFold mp newChecker (rows.map Row.price)).isBidMarkerOrder then mp.BID
        else mp.OFFER) ∧
    ((calculateVwapForQty mp qty rows).price = mp.BID ∨
      (calculateVwapForQty mp qty rows).price = mp.OFFER) := by
  obtain ⟨r, hr, hm⟩ := h
  have hmem : r.price ∈ rows.map Row.price := List.mem_map_of_mem Row.price hr
  have hhas : (chkFold mp newChecker (rows.map Row.price)).hasMarkerOrder = true :=
    chkFold_has_of_mem mp _ newChecker _ hmem hm
  have hck : (vwapGo mp newChecker qty 0 0 (-1) 0 rows).checker =
      chkFold mp newChecker (rows.map Row.price) :=
    vwapGo_checker mp rows newChecker qty 0 0 (-1) 0
  have h1 : (calculateVwapForQty mp qty rows).price =
      (if (chkFold mp newChecker (rows.map Row.price)).isBidMarkerOrder then mp.BID
        else mp.OFFER) := by
    show calculatePrice mp (vwapGo mp newChecker qty 0 0 (-1) 0 rows).checker
      (vwapGo mp newChecker qty 0 0 (-1) 0 rows).value
      ((vwapGo mp newChecker qty 0 0 (-1) 0 rows).used : ℚ) = _
    rw [hck]
    unfold calculatePrice
    rw [if_pos hhas]
  refine ⟨h1, ?_⟩
  rw [h1]
  by_cases hb : (chkFold mp newChecker (rows.map Row.price)).isBidMarkerOrder
  · exact Or.inl (if_pos hb)
  · exact Or.inr (if_neg hb)

/-- Rows for the C2 witness: the bid market order sits after the level that
already fills the whole requested quantity. -/
def c2Rows : List Row :=
  [⟨100, 10, "AQXE", 0, 0, "a"⟩, ⟨0, 50, "M", 0, 0, "m"⟩]

/-- C2 witness: requesting 5 (fully satisfied by the first priced level), the
market order later in the sequence still forces the BID sentinel price. -/
theorem c2_vwap_market_forces_sentinel_witness :
    (∃ r ∈ c2Rows, r.price = mpB.BID ∨ r.price = mpB.OFFER) ∧
    (calculateVwapForQty mpB 5 c2Rows).price = mpB.BID := by
  refine ⟨by decide, ?_⟩
  have h := c2_vwap_market_forces_sentinel mpB 5 c2Rows (by decide)
  rw [h.1]
  decide

/-- Modelled from the spec (§4.6 VWAPEngine), as the words of C4 describe the
no-market walk: for each level with positive quantity while requested
quantity remains, consume `min(remaining, levelQty)`, accumulate consumed
quantity and notional, and record the index of the last level that actually
contributed (levels reached with zero remaining leave the index unchanged;
-1 when no level ever contributed).  Returns (consumed, notional, level). -/
def vwapFillSpec (remaining used : Int) (value : ℚ) (level : Int) (index : Nat) :
    List Row → Int × ℚ × Int
  | [] => (used, value, level)
  | r :: rs =>
    if r.qty > 0 ∧ remaining > 0 then
      vwapFillSpec (remaining - min remaining r.qty) (used + min remaining r.qty)
        (value + ((min remaining r.qty : Int) : ℚ) * r.price) (index : Int) (index + 1) rs
    else
      vwapFillSpec remaining used value level (index + 1) rs

theorem vwapGo_fill (mp : MarketPrices) (rows : List Row) (c : VBBOMarkerOrderChecker)
    (rem used : Int) (val : ℚ) (lvl : Int) (idx : Nat) :
    ((vwapGo mp c rem used val lvl idx rows).used,
      (vwapGo mp c rem used val lvl idx rows).value,
      (vwapGo mp c rem used val lvl idx rows).level) =
      vwapFillSpec rem used val lvl idx rows := by
  induction rows generalizing c rem used val lvl idx with
  | nil => rfl
  | cons r rs ih =>
    have hmin : (if rem > r.qty then r.qty else rem) = min rem r.qty := by
      by_cases hh : rem > r.qty
      · rw [if_pos hh, min_def, if_neg (not_le.mpr hh)]
      · rw [if_neg hh, min_def, if_pos (not_lt.mp hh)]
    by_cases h : rem > 0 ∧ r.qty > 0
    · have h2 : r.qty > 0 ∧ rem > 0 := ⟨h.2, h.1⟩
      simp only [vwapGo, if_pos h, vwapFillSpec, if_pos h2, hmin]
      exact ih _ _ _ _ _ _
    · have h2 : ¬ (r.qty > 0 ∧ rem > 0) := fun hx => h ⟨hx.2, hx.1⟩
      simp only [vwapGo, if_neg h, vwapFillSpec, if_neg h2]
      exact ih _ _ _ _ _ _

theorem vwapGo_used_ge (mp : MarketPrices) (rows : List Row) (c : VBBOMarkerOrderChecker)
    (rem used : Int) (val : ℚ) (lvl : Int) (idx : Nat) :
    used ≤ (vwapGo mp c rem used val lvl idx rows).used := by
  induction rows generalizing c rem used val lvl idx with
  | nil => exact le_refl used
  | cons r rs ih =>
    by_cases h : rem > 0 ∧ r.qty > 0
    · have hadj : 0 < (if rem > r.qty then r.qty else rem) := by
        by_cases hh : rem > r.qty
        · rw [if_pos hh]; exact h.2
        · rw [if_neg hh]; exact h.1
      calc used ≤ used + (if rem > r.qty then r.qty else rem) := by omega
        _ ≤ _ := by
            simp only [vwapGo, if_pos h]
            exact ih _ _ _ _ _ _
    · simp only [vwapGo, if_neg h]
      exact ih _ _ _ _ _ _

/-- C4: when no marker sentinel appears in the sorted sequence, the VWAP
computation agrees with the spec-described walk: consume
min(remaining, levelQty) from each positive-quantity level in order,
return the total consumed quantity, the index of the last contributing level
(-1 when none contributed, unchanged on zero-remaining levels), and price
equal to the accumulated notional divided by the consumed quantity. -/
theorem c4_vwap_partial_fill (mp : MarketPrices) (qty : Int) (rows : List Row)
    (h : ∀ r ∈ rows, r.price ≠ mp.BID ∧ r.price ≠ mp.OFFER) :
    calculateVwapForQty mp qty rows =
      { qty := (vwapFillSpec qty 0 0 (-1) 0 rows).1,
        price := (vwapFillSpec qty 0 0 (-1) 0 rows).2.1 /
          ((vwapFillSpec qty 0 0 (-1) 0 rows).1 : ℚ),
        level := (vwapFillSpec qty 0 0 (-1) 0 rows).2.2 } := by
  have hfill := vwapGo_fill mp rows newChecker qty 0 0 (-1) 0
  have hused : (0 : Int) ≤ (vwapGo mp newChecker qty 0 0 (-1) 0 rows).used :=
    vwapGo_used_ge mp rows newChecker qty 0 0 (-1) 0
  have hclean : (vwapGo mp newChecker qty 0 0 (-1) 0 rows).checker = newChecker := by
    rw [vwapGo_checker]
    refine chkFold_clean mp _ (fun p hp => ?_)
    obtain ⟨r, hr, hpr⟩ := List.mem_map.mp hp
    exact hpr ▸ h r hr
  have hq : (vwapGo mp newChecker qty 0 0 (-1) 0 rows).used = (vwapFillSpec qty 0 0 (-1) 0 rows).1 :=
    congrArg Prod.fst hfill
  have hv : (vwapGo mp newChecker qty 0 0 (-1) 0 rows).value =
      (vwapFillSpec qty 0 0 (-1) 0 rows).2.1 :=
    congrArg (fun p => p.2.1) hfill
  have hl : (vwapGo mp newChecker qty 0 0 (-1) 0 rows).level =
      (vwapFillSpec qty 0 0 (-1) 0 rows).2.2 :=
    congrArg (fun p => p.2.2) hfill
  show (⟨(vwapGo mp newChecker qty 0 0 (-1) 0 rows).used,
      calculatePrice mp (vwapGo mp newChecker qty 0 0 (-1) 0 rows).checker
        (vwapGo mp newChecker qty 0 0 (-1) 0 rows).value
        ((vwapGo mp newChecker qty 0 0 (-1) 0 rows).used : ℚ),
      (vwapGo mp newChecker qty 0 0 (-1) 0 rows).level⟩ : VwapResult) = _
  rw [hq, hv, hl, hclean]
  refine congrArg (fun x => VwapResult.mk (vwapFillSpec qty 0 0 (-1) 0 rows).1 x
    (vwapFillSpec qty 0 0 (-1) 0 rows).2.2) ?_
  unfold calculatePrice
  rw [if_neg (by exact Bool.false_ne_true)]
  rw [hq] at hused
  rcases lt_or_eq_of_le hused with hpos | hzero
  · have hposq : (0 : ℚ) < ((vwapFillSpec qty 0 0 (-1) 0 rows).1 : ℚ) := by
      exact_mod_cast hpos
    rw [if_pos hposq, qdiv_eq_div]
  · rw [if_neg (by rw [← hzero]; simp), ← hzero]
    simp

/-- Market prices for the C4 witness: sentinels that no row price equals. -/
def mp4 : MarketPrices := ⟨-1, -2, -3, -4⟩

/-- Rows for the C4 witness: qty 10 at 100.00, then qty 10 at 99.00. -/
def c4Rows : List Row :=
  [⟨100, 10, "AQXE", 0, 0, "a"⟩, ⟨99, 10, "BATE", 0, 0, "b"⟩]

/-- C4 witness: requesting 15 against qty 10@100 then 10@99 yields
quantity 15, price (100*10+99*5)/15, level 1. -/
theorem c4_vwap_partial_fill_witness :
    (∀ r ∈ c4Rows, r.price ≠ mp4.BID ∧ r.price ≠ mp4.OFFER) ∧
    calculateVwapForQty mp4 15 c4Rows = { qty := 15, price := (1495 : ℚ) / 15, level := 1 } := by
  refine ⟨by decide, ?_⟩
  rw [c4_vwap_partial_fill mp4 15 c4Rows (by decide)]
  have hf : vwapFillSpec 15 0 0 (-1) 0 c4Rows = (15, 1495, 1) := by
    simp only [c4Rows, vwapFillSpec, min_def]
    norm_num
  rw [hf]
  norm_num

/- Book storage: JS objects as insertion-ordered association lists; updates
allocate fresh row objects on the heap. -/

/-- Read of a JS object property: first (only) binding of the key. -/
def objGet {α : Type} (m : List (String × α)) (k : String) : Option α :=
  (m.find? (fun e => decide (e.1 = k))).map (fun e => e.2)

/-- Write of a JS object property: overwrite in place when the key exists,
append otherwise (JS objects keep insertion order for these keys). -/
def objSet {α : Type} (m : List (String × α)) (k : String) (v : α) : List (String × α) :=
  if m.any (fun e => decide (e.1 = k)) then
    m.map (fun e => if e.1 = k then (k, v) else e)
  else m ++ [(k, v)]

/-- The JS delete operator on an object property. -/
def objDelete {α : Type} (m : List (String × α)) (k : String) : List (String × α) :=
  m.filter (fun e => decide (e.1 ≠ k))

/-- BUY_SIDE constant (bookdata.js 14). -/
def BUY_SIDE : Int := 1

/-- SELL_SIDE constant (bookdata.js 15). -/
def SELL_SIDE : Int := 2

/-- _createKeyData/_createRow key (bookdata.js 182-194): JSON.stringify of
the one-property object mapping the venue to the depth level. -/
def createKey (venue : String) (level : Int) : String :=
  "\x7b\"" ++ venue ++ "\":" ++ toString level ++ "\x7d"

/-- _createRow (bookdata.js 190-202). -/
def createRow (price : ℚ) (qty : Int) (venue : String) (level : Int) : Row :=
  { price := price, qty := qty, venue := venue, vbbo := 0, cumQty := 0,
    key := createKey venue level }

/-- Whole BookData instance state: the row heap (reference targets), the two
side maps holding row ids, and the sorted snapshots of the last redisplay. -/
structure BookState where
  heap : List Row
  buySide : List (String × Nat)
  sellSide : List (String × Nat)
  sortedBuy : List Nat
  sortedSell : List Nat
deriving DecidableEq

/-- Field initialisation of `new BookData()` (bookdata.js 20-24). -/
def initialBook : BookState := ⟨[], [], [], [], []⟩

/-- _setSideData (bookdata.js 167-179): delete the composite key when the
quantity is zero, otherwise store the (id of the) new row under it. -/
def setSideData (sideData : List (String × Nat)) (newRow : Row) (nid : Nat) :
    List (String × Nat) :=
  if newRow.qty = 0 then objDelete sideData newRow.key
  else objSet sideData newRow.key nid

/-- updateBook (bookdata.js 30-40): allocate the new row object and update
the chosen side map. -/
def updateBook (st : BookState) (level : Int) (side : Int) (qty : Int) (price : ℚ)
    (venue : String) : BookState :=
  let newRow := createRow price qty venue level
  let nid := st.heap.length
  if side = BUY_SIDE then
    { st with heap := st.heap ++ [newRow], buySide := setSideData st.buySide newRow nid }
  else
    { st with heap := st.heap ++ [newRow], sellSide := setSideData st.sellSide newRow nid }

/-- resetData (bookdata.js 120-126): clear both sides and both snapshots. -/
def resetData (st : BookState) : BookState :=
  { st with buySide := [], sellSide := [], sortedBuy := [], sortedSell := [] }

/-- Rounding applied before grouping (bookdata.js 83):
Converter.toFloat(price).toFixed(4); toFixed rounds to the nearest
4-fraction-digit value, ties toward the larger value, that is
floor(p * 10000 + 1/2) / 10000.  Written on the numerator and denominator
(p * 10000 + 1/2 = (20000 * p.num + p.den) / (2 * p.den), and `Int.fdiv` of
a fraction with positive denominator is its floor) so that the kernel can
evaluate it. -/
def round4 (p : ℚ) : ℚ :=
  Rat.divInt (Int.fdiv (20000 * p.num + (p.den : ℤ)) (2 * (p.den : ℤ))) 10000

/-- Lookup in the byPriceMap keyed by rounded price. -/
def alistGet (m : List (ℚ × Nat)) (k : ℚ) : Option Nat :=
  (m.find? (fun e => decide (e.1 = k))).map (fun e => e.2)

/-- First loop of _aggregate (bookdata.js 78-106): group rows by rounded
price.  The first row seen at a price seeds its group — the seed is the
stored row itself, reached by reference, and its quantity is re-written
through that reference as parseInt of itself (the identity in this integer
quantity model, hence the write of the unchanged value).  A later row at the
same price is merged into the seed record: quantities and cumulative
quantities are added, and when the seed's venue is the empty
already-aggregated marker the seed adopts the later row's key. -/
def aggLoop (heap : List Row) (bpm : List (ℚ × Nat)) :
    List (String × Nat) → List Row × List (ℚ × Nat)
  | [] => (heap, bpm)
  | e :: rest =>
    let value := rowAt heap e.2
    let rp := round4 value.price
    match alistGet bpm rp with
    | none =>
      aggLoop (heap.set e.2 { value with qty := value.qty }) (bpm ++ [(rp, e.2)]) rest
    | some seedId =>
      let seed := rowAt heap seedId
      aggLoop
        (heap.set seedId
          { seed with
            qty := seed.qty + value.qty,
            cumQty := seed.cumQty + value.cumQty,
            key := if seed.venue = "" then value.key else seed.key })
        bpm rest

/-- Second loop of _aggregate (bookdata.js 109-115): clear each group seed's
venue (again through the shared reference) and key the result object by the
seed's (possibly adopted) composite key. -/
def aggTranspose (heap : List Row) (result : List (String × Nat)) :
    List (ℚ × Nat) → List Row × List (String × Nat)
  | [] => (heap, result)
  | e :: rest =>
    let v := rowAt heap e.2
    aggTranspose (heap.set e.2 { v with venue := "" }) (objSet result v.key e.2) rest

/-- _aggregate (bookdata.js 73-118): run both loops, returning the mutated
heap and the aggregated map. -/
def aggregate (heap : List Row) (side : List (String × Nat)) :
    List Row × List (String × Nat) :=
  let p := aggLoop heap [] side
  aggTranspose p.1 [] p.2

/-- _sortValues (bookdata.js 206-215): values of the map, sorted by the
comparator (modelled by mergeSort on the comparator's non-positive
relation). -/
def sortValues (heap : List Row) (side : List (String × Nat)) (cmp : Row → Row → ℚ) :
    List Nat :=
  (side.map (fun e => e.2)).mergeSort
    (fun a b => decide (cmp (rowAt heap a) (rowAt heap b) ≤ 0))

/-- Store a list of computed rows back on the heap under the given ids. -/
def writeBack (heap : List Row) (l : List (Nat × Row)) : List Row :=
  l.foldl (fun h e => h.set e.1 e.2) heap

/-- _calculateVBBO (bookdata.js 269-294) on the heap: dereference the sorted
ids, run the pass, and store the updated rows back under the same ids.  The
JS loop mutates the shared row objects in place; it reads only price and
quantity (which it never writes) and writes only cumQty and vbbo, so the
batched write-back is that in-place mutation. -/
def calculateVBBO (mp : MarketPrices) (heap : List Row) (ids : List Nat) : List Row :=
  writeBack heap (ids.zip (vbboRows mp (ids.map (rowAt heap))))

/-- redisplay (bookdata.js 45-71) without the rendering callback (row
emission is I/O outside this core, and reads state this model keeps):
aggregate each side when consolidated (buy first, in statement order), sort
each side, truncate a side to 5 entries when consolidated and longer than 5,
then run the VBBO pass of each side.  The side maps themselves are not
reassigned. -/
def redisplay (mp : MarketPrices) (st : BookState) (consolidated : Bool) : BookState :=
  let pb := if consolidated then aggregate st.heap st.buySide else (st.heap, st.buySide)
  let sb0 := sortValues pb.1 pb.2 compareBuy
  let ps := if consolidated then aggregate pb.1 st.sellSide else (pb.1, st.sellSide)
  let ss0 := sortValues ps.1 ps.2 compareSell
  let sb := if consolidated ∧ sb0.length > 5 then sb0.take 5 else sb0
  let ss := if consolidated ∧ ss0.length > 5 then ss0.take 5 else ss0
  let h3 := calculateVBBO mp ps.1 sb
  let h4 := calculateVBBO mp h3 ss
  { heap := h4, buySide := st.buySide, sellSide := st.sellSide,
    sortedBuy := sb, sortedSell := ss }

/-- Record returned by getVwapUpdate (bookdata.js 135-144). -/
structure VwapUpdate where
  vwap : String
  qty : Int
  buyQty : Int
  buyPrice : ℚ
  buyLevel : Int
  sellQty : Int
  sellPrice : ℚ
  sellLevel : Int
deriving DecidableEq

/-- getVwapUpdate (bookdata.js 128-145): compute both VWAPs over the stored
sorted snapshots of the most recent redisplay, not over the side maps. -/
def getVwapUpdate (mp : MarketPrices) (st : BookState) (vwapName : String) (qty : Int) :
    VwapUpdate :=
  let buyVwap := calculateVwapForQty mp qty (st.sortedBuy.map (rowAt st.heap))
  let sellVwap := calculateVwapForQty mp qty (st.sortedSell.map (rowAt st.heap))
  ⟨vwapName, qty, buyVwap.qty, buyVwap.price, buyVwap.level,
    sellVwap.qty, sellVwap.price, sellVwap.level⟩

/-- Side map selected by the side constant (bookdata.js 33). -/
def sideFor (st : BookState) (side : Int) : List (String × Nat) :=
  if side = BUY_SIDE then st.buySide else st.sellSide

/-- Stored row under a composite key on a side, dereferenced. -/
def lookupLevel (st : BookState) (side : Int) (k : String) : Option Row :=
  (objGet (sideFor st side) k).map (rowAt st.heap)

/- Lemmas about the JS object model. -/

theorem objGet_objDelete_self {α : Type} (m : List (String × α)) (k : String) :
    objGet (objDelete m k) k = none := by
  induction m with
  | nil => rfl
  | cons e rest _ih =>
    by_cases h : e.1 = k
    · simp [objDelete, objGet, List.filter_cons, h]
    · simp [objDelete, objGet, List.filter_cons, List.find?_cons, h]

theorem objGet_map_overwrite {α : Type} (m : List (String × α)) (k : String) (v : α)
    (h : ∃ e ∈ m, e.1 = k) :
    objGet (m.map (fun e => if e.1 = k then (k, v) else e)) k = some v := by
  induction m with
  | nil => simp at h
  | cons e rest ih =>
    by_cases he : e.1 = k
    · simp [objGet, List.find?_cons, he]
    · obtain ⟨f, hf, hfk⟩ := h
      rcases List.mem_cons.mp hf with hfe | hfr
      · exact absurd (hfe ▸ hfk) he
      · have := ih ⟨f, hfr, hfk⟩
        simpa [objGet, List.find?_cons, he] using this

theorem objGet_append_fresh {α : Type} (m : List (String × α)) (k : String) (v : α)
    (h : ∀ e ∈ m, e.1 ≠ k) :
    objGet (m ++ [(k, v)]) k = some v := by
  induction m with
  | nil => simp [objGet]
  | cons e rest ih =>
    have he : e.1 ≠ k := h e (List.mem_cons_self e rest)
    have := ih (fun f hf => h f (List.mem_cons_of_mem e hf))
    simpa [objGet, List.find?_cons, he] using this

theorem objGet_objSet_self {α : Type} (m : List (String × α)) (k : String) (v : α) :
    objGet (objSet m k v) k = some v := by
  by_cases h : m.any (fun e => decide (e.1 = k))
  · rw [objSet, if_pos h]
    refine objGet_map_overwrite m k v ?_
    obtain ⟨e, he, hek⟩ := List.any_eq_true.mp h
    exact ⟨e, he, by simpa using hek⟩
  · rw [objSet, if_neg h]
    refine objGet_append_fresh m k v (fun e he hek => ?_)
    exact h (List.any_eq_true.mpr ⟨e, he, by simpa using hek⟩)

theorem objSet_append_fresh {α : Type} (m : List (String × α)) (k : String) (v : α)
    (h : ∀ e ∈ m, e.1 ≠ k) :
    objSet m k v = m ++ [(k, v)] := by
  rw [objSet, if_neg]
  intro hx
  obtain ⟨e, he, hek⟩ := List.any_eq_true.mp hx
  exact h e he (by simpa using hek)

/-- C7: on every side, an upsert with quantity 0 removes any entry stored
under the composite venue/level key (the price, zero or not, is never the
removal trigger); an upsert with positive quantity inserts or overwrites the
entry — a zero-priced level with positive quantity is kept — and after a
quantity-0 upsert a positive-quantity upsert for the same key reinstates the
entry. -/
theorem c7_upsert_zero_removal (st : BookState) (level : Int) (side : Int) (price : ℚ)
    (venue : String) :
    (lookupLevel (updateBook st level side 0 price venue) side (createKey venue level) =
      none) ∧
    (∀ q : Int, 0 < q →
      lookupLevel (updateBook st level side q price venue) side (createKey venue level) =
        some (createRow price q venue level)) ∧
    (∀ q : Int, 0 < q →
      lookupLevel
          (updateBook (updateBook st level side 0 price venue) level side q price venue)
          side (createKey venue level) =
        some (createRow price q venue level)) := by
  have hset : ∀ (st2 : BookState) (q : Int), 0 < q →
      lookupLevel (updateBook st2 level side q price venue) side (createKey venue level) =
        some (createRow price q venue level) := by
    intro st2 q hq
    have hqz : (createRow price q venue level).qty ≠ 0 := by
      show q ≠ 0
      omega
    by_cases hside : side = BUY_SIDE
    · show ((objGet (sideFor (updateBook st2 level side q price venue) side)
        (createKey venue level)).map (rowAt (updateBook st2 level side q price venue).heap)) = _
      rw [updateBook, if_pos hside]
      show (objGet (sideFor ⟨st2.heap ++ [createRow price q venue level],
          setSideData st2.buySide (createRow price q venue level) st2.heap.length,
          st2.sellSide, st2.sortedBuy, st2.sortedSell⟩ side) (createKey venue level)).map _ = _
      rw [sideFor, if_pos hside]
      show ((objGet (setSideData st2.buySide (createRow price q venue level) st2.heap.length)
        (createKey venue level)).map _) = _
      rw [setSideData, if_neg hqz,
        show (createRow price q venue level).key = createKey venue level from rfl,
        objGet_objSet_self]
      show some (rowAt (st2.heap ++ [createRow price q venue level]) st2.heap.length) = _
      rw [rowAt, getD_append_len]
    · show ((objGet (sideFor (updateBook st2 level side q price venue) side)
        (createKey venue level)).map (rowAt (updateBook st2 level side q price venue).heap)) = _
      rw [updateBook, if_neg hside]
      show (objGet (sideFor ⟨st2.heap ++ [createRow price q venue level], st2.buySide,
          setSideData st2.sellSide (createRow price q venue level) st2.heap.length,
          st2.sortedBuy, st2.sortedSell⟩ side) (createKey venue level)).map _ = _
      rw [sideFor, if_neg hside]
      show ((objGet (setSideData st2.sellSide (createRow price q venue level) st2.heap.length)
        (createKey venue level)).map _) = _
      rw [setSideData, if_neg hqz,
        show (createRow price q venue level).key = createKey venue level from rfl,
        objGet_objSet_self]
      show some (rowAt (st2.heap ++ [createRow price q venue level]) st2.heap.length) = _
      rw [rowAt, getD_append_len]
  have hdel : lookupLevel (updateBook st level side 0 price venue) side
      (createKey venue level) = none := by
    have hqz : (createRow price 0 venue level).qty = 0 := rfl
    by_cases hside : side = BUY_SIDE
    · show ((objGet (sideFor (updateBook st level side 0 price venue) side)
        (createKey venue level)).map _) = _
      rw [updateBook, if_pos hside]
      show (objGet (sideFor ⟨st.heap ++ [createRow price 0 venue level],
          setSideData st.buySide (createRow price 0 venue level) st.heap.length,
          st.sellSide, st.sortedBuy, st.sortedSell⟩ side) (createKey venue level)).map _ = _
      rw [sideFor, if_pos hside]
      show ((objGet (setSideData st.buySide (createRow price 0 venue level) st.heap.length)
        (createKey venue level)).map _) = _
      rw [setSideData, if_pos hqz,
        show (createRow price 0 venue level).key = createKey venue level from rfl,
        objGet_objDelete_self]
      rfl
    · show ((objGet (sideFor (updateBook st level side 0 price venue) side)
        (createKey venue level)).map _) = _
      rw [updateBook, if_neg hside]
      show (objGet (sideFor ⟨st.heap ++ [createRow price 0 venue level], st.buySide,
          setSideData st.sellSide (createRow price 0 venue level) st.heap.length,
          st.sortedBuy, st.sortedSell⟩ side) (createKey venue level)).map _ = _
      rw [sideFor, if_neg hside]
      show ((objGet (setSideData st.sellSide (createRow price 0 venue level) st.heap.length)
        (createKey venue level)).map _) = _
      rw [setSideData, if_pos hqz,
        show (createRow price 0 venue level).key = createKey venue level from rfl,
        objGet_objDelete_self]
      rfl
  exact ⟨hdel, hset st, fun q hq => hset (updateBook st level side 0 price venue) q hq⟩

/-- C7 witness: a zero-priced level with positive quantity is stored; the
deletion/reinstatement sequence at the same key ends with the entry back. -/
theorem c7_upsert_zero_removal_witness :
    lookupLevel (updateBook initialBook 1 BUY_SIDE 7 0 "AQXE") BUY_SIDE
        (createKey "AQXE" 1) = some (createRow 0 7 "AQXE" 1) ∧
    lookupLevel
        (updateBook (updateBook initialBook 1 BUY_SIDE 0 0 "AQXE") 1 BUY_SIDE 7 0 "AQXE")
        BUY_SIDE (createKey "AQXE" 1) = some (createRow 0 7 "AQXE" 1) :=
  ⟨(c7_upsert_zero_removal initialBook 1 BUY_SIDE 0 "AQXE").2.1 7 (by decide),
   (c7_upsert_zero_removal initialBook 1 BUY_SIDE 0 "AQXE").2.2 7 (by decide)⟩

/- Lengths through a redisplay pass. -/

theorem sortValues_length (heap : List Row) (side : List (String × Nat))
    (cmp : Row → Row → ℚ) :
    (sortValues heap side cmp).length = side.length := by
  rw [sortValues, List.length_mergeSort, List.length_map]

theorem trunc_le (p : Prop) [Decidable p] (l : List Nat) (hp : p) :
    (if p ∧ l.length > 5 then l.take 5 else l).length ≤ 5 := by
  by_cases h : l.length > 5
  · rw [if_pos ⟨hp, h⟩]
    simp [List.length_take]
  · rw [if_neg (fun hc => h hc.2)]
    omega

theorem trunc_id (p : Prop) [Decidable p] (l : List Nat) (hp : ¬ p) :
    (if p ∧ l.length > 5 then l.take 5 else l) = l :=
  if_neg (fun hc => hp hc.1)

/-- C6: a consolidated redisplay pass truncates each sorted side to at most
5 entries; an unconsolidated pass applies no truncation — each sorted side
has exactly the full raw depth of its side map. -/
theorem c6_depth_truncation (mp : MarketPrices) (st : BookState) :
    ((redisplay mp st true).sortedBuy.length ≤ 5 ∧
      (redisplay mp st true).sortedSell.length ≤ 5) ∧
    ((redisplay mp st false).sortedBuy.length = st.buySide.length ∧
      (redisplay mp st false).sortedSell.length = st.sellSide.length) := by
  have redTB : (redisplay mp st true).sortedBuy =
      (if ((true : Bool) = true) ∧
          (sortValues (aggregate st.heap st.buySide).1 (aggregate st.heap st.buySide).2
            compareBuy).length > 5
        then (sortValues (aggregate st.heap st.buySide).1 (aggregate st.heap st.buySide).2
            compareBuy).take 5
        else sortValues (aggregate st.heap st.buySide).1 (aggregate st.heap st.buySide).2
            compareBuy) := rfl
  have redTS : (redisplay mp st true).sortedSell =
      (if ((true : Bool) = true) ∧
          (sortValues (aggregate (aggregate st.heap st.buySide).1 st.sellSide).1
            (aggregate (aggregate st.heap st.buySide).1 st.sellSide).2 compareSell).length > 5
        then (sortValues (aggregate (aggregate st.heap st.buySide).1 st.sellSide).1
            (aggregate (aggregate st.heap st.buySide).1 st.sellSide).2 compareSell).take 5
        else sortValues (aggregate (aggregate st.heap st.buySide).1 st.sellSide).1
            (aggregate (aggregate st.heap st.buySide).1 st.sellSide).2 compareSell) := rfl
  have redFB : (redisplay mp st false).sortedBuy =
      (if ((false : Bool) = true) ∧
          (sortValues st.heap st.buySide compareBuy).length > 5
        then (sortValues st.heap st.buySide compareBuy).take 5
        else sortValues st.heap st.buySide compareBuy) := rfl
  have redFS : (redisplay mp st false).sortedSell =
      (if ((false : Bool) = true) ∧
          (sortValues st.heap st.sellSide compareSell).length > 5
        then (sortValues st.heap st.sellSide compareSell).take 5
        else sortValues st.heap st.sellSide compareSell) := rfl
  refine ⟨⟨?_, ?_⟩, ?_, ?_⟩
  · rw [redTB]
    exact trunc_le _ _ rfl
  · rw [redTS]
    exact trunc_le _ _ rfl
  · rw [redFB, trunc_id _ _ Bool.false_ne_true]
    exact sortValues_length st.heap st.buySide compareBuy
  · rw [redFS, trunc_id _ _ Bool.false_ne_true]
    exact sortValues_length st.heap st.sellSide compareSell

/-- C10: the VWAP quote reads the sorted snapshot of the most recent
redisplay, not the side storage: on a fresh book (no redisplay ever) and
after resetData (sorted snapshots cleared), both sides report
qty 0, price 0, level -1; and an upsert performed after the last redisplay
leaves the quote unchanged (for any book state whose snapshot ids are valid
heap indices, as every reachable state's are). -/
theorem c10_vwap_snapshot (mp : MarketPrices) (st : BookState) (vwapName : String)
    (qty : Int) :
    getVwapUpdate mp initialBook vwapName qty =
      ⟨vwapName, qty, 0, 0, -1, 0, 0, -1⟩ ∧
    getVwapUpdate mp (resetData st) vwapName qty =
      ⟨vwapName, qty, 0, 0, -1, 0, 0, -1⟩ ∧
    (∀ (level side q : Int) (price : ℚ) (venue : String),
      (∀ id ∈ st.sortedBuy, id < st.heap.length) →
      (∀ id ∈ st.sortedSell, id < st.heap.length) →
      getVwapUpdate mp (updateBook st level side q price venue) vwapName qty =
        getVwapUpdate mp st vwapName qty) := by
  have hempty : calculateVwapForQty mp qty ([] : List Row) = ⟨0, 0, -1⟩ := by
    show (⟨0, calculatePrice mp newChecker 0 ((0 : Int) : ℚ), -1⟩ : VwapResult) = ⟨0, 0, -1⟩
    have hp : calculatePrice mp newChecker 0 ((0 : Int) : ℚ) = 0 := by
      unfold calculatePrice
      rw [if_neg (show ¬ newChecker.hasMarkerOrder = true from Bool.false_ne_true),
        if_neg (by norm_num)]
    rw [hp]
  have hu : ∀ (st2 : BookState), st2.sortedBuy = [] → st2.sortedSell = [] →
      getVwapUpdate mp st2 vwapName qty = ⟨vwapName, qty, 0, 0, -1, 0, 0, -1⟩ := by
    intro st2 hb2 hs2
    show (⟨vwapName, qty,
      (calculateVwapForQty mp qty (st2.sortedBuy.map (rowAt st2.heap))).qty,
      (calculateVwapForQty mp qty (st2.sortedBuy.map (rowAt st2.heap))).price,
      (calculateVwapForQty mp qty (st2.sortedBuy.map (rowAt st2.heap))).level,
      (calculateVwapForQty mp qty (st2.sortedSell.map (rowAt st2.heap))).qty,
      (calculateVwapForQty mp qty (st2.sortedSell.map (rowAt st2.heap))).price,
      (calculateVwapForQty mp qty (st2.sortedSell.map (rowAt st2.heap))).level⟩ : VwapUpdate) = _
    rw [hb2, hs2, List.map_nil, hempty]
  refine ⟨hu initialBook rfl rfl, hu (resetData st) rfl rfl, ?_⟩
  intro level side q price venue hb hs
  have hheap : ∀ ids : List Nat, (∀ id ∈ ids, id < st.heap.length) →
      ids.map (rowAt (st.heap ++ [createRow price q venue level])) =
      ids.map (rowAt st.heap) := by
    intro ids hv
    exact List.map_congr_left (fun id hid => getD_append_lt _ _ id dfRow (hv id hid))
  have hmain : ∀ (st3 : BookState), st3.heap = st.heap ++ [createRow price q venue level] →
      st3.sortedBuy = st.sortedBuy → st3.sortedSell = st.sortedSell →
      getVwapUpdate mp st3 vwapName qty = getVwapUpdate mp st vwapName qty := by
    intro st3 hh hb3 hs3
    show (⟨vwapName, qty,
      (calculateVwapForQty mp qty (st3.sortedBuy.map (rowAt st3.heap))).qty,
      (calculateVwapForQty mp qty (st3.sortedBuy.map (rowAt st3.heap))).price,
      (calculateVwapForQty mp qty (st3.sortedBuy.map (rowAt st3.heap))).level,
      (calculateVwapForQty mp qty (st3.sortedSell.map (rowAt st3.heap))).qty,
      (calculateVwapForQty mp qty (st3.sortedSell.map (rowAt st3.heap))).price,
      (calculateVwapForQty mp qty (st3.sortedSell.map (rowAt st3.heap))).level⟩ : VwapUpdate) = _
    rw [hh, hb3, hs3, hheap st.sortedBuy hb, hheap st.sortedSell hs]
    rfl
  by_cases hside : side = BUY_SIDE
  · have hred : updateBook st level side q price venue =
        ⟨st.heap ++ [createRow price q venue level],
          setSideData st.buySide (createRow price q venue level) st.heap.length,
          st.sellSide, st.sortedBuy, st.sortedSell⟩ := by
      simp only [updateBook]
      rw [if_pos hside]
    rw [hred]
    exact hmain _ rfl rfl rfl
  · have hred : updateBook st level side q price venue =
        ⟨st.heap ++ [createRow price q venue level], st.buySide,
          setSideData st.sellSide (createRow price q venue level) st.heap.length,
          st.sortedBuy, st.sortedSell⟩ := by
      simp only [updateBook]
      rw [if_neg hside]
    rw [hred]
    exact hmain _ rfl rfl rfl

/-- Book state for the C10 witness: one displayed buy row with a valid
snapshot id. -/
def stW : BookState := ⟨[⟨100, 10, "AQXE", 0, 0, "k"⟩], [("k", 0)], [], [0], []⟩

/-- C10 witness: a fresh book quotes zeros, and an upsert after the last
redisplay leaves the quote of a displayed book unchanged. -/
theorem c10_vwap_snapshot_witness :
    getVwapUpdate mp4 initialBook "V" 3 = ⟨"V", 3, 0, 0, -1, 0, 0, -1⟩ ∧
    getVwapUpdate mp4 (updateBook stW 2 BUY_SIDE 5 50 "BATE") "V" 3 =
      getVwapUpdate mp4 stW "V" 3 :=
  ⟨(c10_vwap_snapshot mp4 stW "V" 3).1,
   (c10_vwap_snapshot mp4 stW "V" 3).2.2 2 BUY_SIDE 5 50 "BATE" (by decide) (by decide)⟩

/- The VBBO pass writes only cumQty and vbbo: price, qty, venue and key of
every heap row survive a calculateVBBO call. -/

/-- Agreement of two rows on the fields the VBBO pass never writes. -/
def pqvkEq (a b : Row) : Prop :=
  a.price = b.price ∧ a.qty = b.qty ∧ a.venue = b.venue ∧ a.key = b.key

theorem pqvkEq_refl (a : Row) : pqvkEq a a := ⟨rfl, rfl, rfl, rfl⟩

theorem set_oob {α : Type} (l : List α) (i : Nat) (a : α) (h : l.length ≤ i) :
    l.set i a = l := by
  induction l generalizing i with
  | nil => rfl
  | cons x xs ih =>
    cases i with
    | zero => simp at h
    | succ n => exact congrArg (List.cons x) (ih n (by simpa using h))

theorem vbboGo_length (mp : MarketPrices) (c : VBBOMarkerOrderChecker) (cq : Int) (v : ℚ)
    (rows : List Row) : (vbboGo mp c cq v rows).length = rows.length := by
  induction rows generalizing c cq v with
  | nil => rfl
  | cons r rs ih => simpa [vbboGo] using ih _ _ _

theorem vbboRows_pqvk (mp : MarketPrices) (rows : List Row) (i : Nat) (hi : i < rows.length) :
    pqvkEq ((vbboRows mp rows).getD i dfRow) (rows.getD i dfRow) := by
  obtain ⟨cq2, v2, hh⟩ := vbboGo_getD mp rows newChecker 0 0 i hi
  rw [show vbboRows mp rows = vbboGo mp newChecker 0 0 rows from rfl, hh]
  exact ⟨rfl, rfl, rfl, rfl⟩

theorem getD_map_rowAt (heap : List Row) (ids : List Nat) (i : Nat) (hi : i < ids.length) :
    (ids.map (rowAt heap)).getD i dfRow = rowAt heap (ids.getD i 0) := by
  induction ids generalizing i with
  | nil => simp at hi
  | cons a as ih =>
    cases i with
    | zero => rfl
    | succ n => simpa using ih n (by simpa using hi)

theorem mem_zip_idx (ids : List Nat) (rows : List Row) (e : Nat × Row)
    (he : e ∈ ids.zip rows) :
    ∃ i, i < ids.length ∧ i < rows.length ∧ e.1 = ids.getD i 0 ∧ e.2 = rows.getD i dfRow := by
  induction ids generalizing rows with
  | nil => simp [List.zip] at he
  | cons a as ih =>
    cases rows with
    | nil => simp [List.zip] at he
    | cons b bs =>
      rcases List.mem_cons.mp he with hh | ht
      · refine ⟨0, by simp, by simp, ?_, ?_⟩
        · rw [hh]; rfl
        · rw [hh]; rfl
      · obtain ⟨i, h1, h2, h3, h4⟩ := ih bs ht
        refine ⟨i + 1, by simpa using h1, by simpa using h2, ?_, ?_⟩
        · rw [List.getD_cons_succ]; exact h3
        · rw [List.getD_cons_succ]; exact h4

theorem writeBack_preserves (heap0 : List Row) (l : List (Nat × Row)) :
    ∀ (heap : List Row), (∀ j, pqvkEq (heap.getD j dfRow) (heap0.getD j dfRow)) →
      (∀ e ∈ l, pqvkEq e.2 (heap0.getD e.1 dfRow)) →
      ∀ j, pqvkEq ((writeBack heap l).getD j dfRow) (heap0.getD j dfRow) := by
  induction l with
  | nil => exact fun heap ha _ j => ha j
  | cons e rest ih =>
    intro heap ha hl j
    show pqvkEq ((writeBack (heap.set e.1 e.2) rest).getD j dfRow) _
    refine ih (heap.set e.1 e.2) ?_ (fun f hf => hl f (List.mem_cons_of_mem e hf)) j
    intro j2
    by_cases hj : e.1 = j2
    · subst hj
      by_cases hr : e.1 < heap.length
      · rw [getD_set_self heap e.1 e.2 dfRow hr]
        exact hl e (List.mem_cons_self e rest)
      · rw [set_oob heap e.1 e.2 (by omega)]
        exact ha e.1
    · rw [getD_set_ne heap e.1 j2 e.2 dfRow hj]
      exact ha j2

theorem calculateVBBO_pqvk (mp : MarketPrices) (heap : List Row) (ids : List Nat) (j : Nat) :
    pqvkEq ((calculateVBBO mp heap ids).getD j dfRow) (heap.getD j dfRow) := by
  refine writeBack_preserves heap _ heap (fun j2 => pqvkEq_refl _) ?_ j
  intro e he
  obtain ⟨i, h1, h2, h3, h4⟩ := mem_zip_idx ids (vbboRows mp (ids.map (rowAt heap))) e he
  have hlen : i < (ids.map (rowAt heap)).length := by
    rw [List.length_map]; exact h1
  have hv := vbboRows_pqvk mp (ids.map (rowAt heap)) i hlen
  rw [getD_map_rowAt heap ids i h1] at hv
  rw [h4, h3]
  exact hv

/-- C9: aggregation mutates the stored level records rather than building
fresh ones.  For any two stored buy rows sharing a rounded price, a single
consolidated redisplay leaves the side map untouched (still pointing at the
seed row), while the seed record on the heap now carries the merged
quantity, the empty aggregated venue tag, and — when the seed was already
venue-less — the later row's composite key; in particular the stored record
is no longer the ingested one whenever it had a venue. -/
theorem c9_aggregate_mutates_seed (mp : MarketPrices) (r1 r2 : Row)
    (h : round4 r1.price = round4 r2.price) :
    (redisplay mp ⟨[r1, r2], [(r1.key, 0), (r2.key, 1)], [], [], []⟩ true).buySide =
      [(r1.key, 0), (r2.key, 1)] ∧
    ((redisplay mp ⟨[r1, r2], [(r1.key, 0), (r2.key, 1)], [], [], []⟩ true).heap.getD 0
        dfRow).venue = "" ∧
    ((redisplay mp ⟨[r1, r2], [(r1.key, 0), (r2.key, 1)], [], [], []⟩ true).heap.getD 0
        dfRow).qty = r1.qty + r2.qty ∧
    ((redisplay mp ⟨[r1, r2], [(r1.key, 0), (r2.key, 1)], [], [], []⟩ true).heap.getD 0
        dfRow).key = (if r1.venue = "" then r2.key else r1.key) ∧
    (r1.venue ≠ "" →
      (redisplay mp ⟨[r1, r2], [(r1.key, 0), (r2.key, 1)], [], [], []⟩ true).heap.getD 0
        dfRow ≠ r1) := by
  have hloop : aggLoop [r1, r2] [] [(r1.key, 0), (r2.key, 1)] =
      ([(⟨r1.price, r1.qty + r2.qty, r1.venue, r1.vbbo, r1.cumQty + r2.cumQty,
          if r1.venue = "" then r2.key else r1.key⟩ : Row), r2],
        [(round4 r1.price, 0)]) := by
    simp [aggLoop, rowAt, alistGet, ← h]
  have htrans : aggTranspose
      [(⟨r1.price, r1.qty + r2.qty, r1.venue, r1.vbbo, r1.cumQty + r2.cumQty,
        if r1.venue = "" then r2.key else r1.key⟩ : Row), r2] []
      [(round4 r1.price, 0)] =
      ([(⟨r1.price, r1.qty + r2.qty, "", r1.vbbo, r1.cumQty + r2.cumQty,
          if r1.venue = "" then r2.key else r1.key⟩ : Row), r2],
        [(if r1.venue = "" then r2.key else r1.key, 0)]) := by
    simp [aggTranspose, rowAt, objSet]
  have hagg : aggregate [r1, r2] [(r1.key, 0), (r2.key, 1)] =
      ([(⟨r1.price, r1.qty + r2.qty, "", r1.vbbo, r1.cumQty + r2.cumQty,
          if r1.venue = "" then r2.key else r1.key⟩ : Row), r2],
        [(if r1.venue = "" then r2.key else r1.key, 0)]) := by
    show aggTranspose (aggLoop [r1, r2] [] [(r1.key, 0), (r2.key, 1)]).1 []
      (aggLoop [r1, r2] [] [(r1.key, 0), (r2.key, 1)]).2 = _
    rw [hloop]
    exact htrans
  have haggNil : ∀ hp : List Row, aggregate hp [] = (hp, []) := fun hp => rfl
  have hsortNil : ∀ (hp : List Row) (cmp : Row → Row → ℚ), sortValues hp [] cmp = [] := by
    intro hp cmp
    simp [sortValues]
  have hvbboNil : ∀ hp : List Row, calculateVBBO mp hp [] = hp := fun hp => rfl
  have hsort : sortValues
      [(⟨r1.price, r1.qty + r2.qty, "", r1.vbbo, r1.cumQty + r2.cumQty,
        if r1.venue = "" then r2.key else r1.key⟩ : Row), r2]
      [(if r1.venue = "" then r2.key else r1.key, 0)] compareBuy = [0] := by
    simp [sortValues, List.mergeSort]
  have hred : redisplay mp ⟨[r1, r2], [(r1.key, 0), (r2.key, 1)], [], [], []⟩ true =
      ⟨calculateVBBO mp
        [(⟨r1.price, r1.qty + r2.qty, "", r1.vbbo, r1.cumQty + r2.cumQty,
          if r1.venue = "" then r2.key else r1.key⟩ : Row), r2] [0],
        [(r1.key, 0), (r2.key, 1)], [], [0], []⟩ := by
    simp [redisplay, hagg, haggNil, hsort, hsortNil, hvbboNil]
  rw [hred]
  have hpq := calculateVBBO_pqvk mp
    [(⟨r1.price, r1.qty + r2.qty, "", r1.vbbo, r1.cumQty + r2.cumQty,
      if r1.venue = "" then r2.key else r1.key⟩ : Row), r2] [0] 0
  obtain ⟨hp, hq, hv, hk⟩ := hpq
  have hven : ((calculateVBBO mp
      [(⟨r1.price, r1.qty + r2.qty, "", r1.vbbo, r1.cumQty + r2.cumQty,
        if r1.venue = "" then r2.key else r1.key⟩ : Row), r2] [0]).getD 0 dfRow).venue = "" :=
    hv.trans rfl
  refine ⟨rfl, hven, hq.trans rfl, hk.trans rfl, ?_⟩
  intro hne heq
  have := congrArg Row.venue heq
  rw [hven] at this
  exact hne this.symm

/-- C9 witness: two venue-tagged rows at the same price 10; the consolidated
redisplay mutates the stored seed record. -/
theorem c9_aggregate_mutates_seed_witness :
    ((redisplay mp4 ⟨[⟨10, 5, "AQXE", 0, 0, "ka"⟩, ⟨10, 3, "BATE", 0, 0, "kb"⟩],
        [("ka", 0), ("kb", 1)], [], [], []⟩ true).heap.getD 0 dfRow).qty = 8 := by
  have h := c9_aggregate_mutates_seed mp4 ⟨10, 5, "AQXE", 0, 0, "ka"⟩
    ⟨10, 3, "BATE", 0, 0, "kb"⟩ (by decide)
  exact h.2.2.1

/- Aggregation idempotence: on an already-consolidated side (pairwise
distinct rounded prices, empty venue tags, map keys matching row keys) the
first loop only seeds groups and the second only re-clears venues, so the
(price, quantity) pairs survive unchanged. -/

theorem alistGet_append_none (m : List (ℚ × Nat)) (k k2 : ℚ) (v : Nat)
    (h1 : alistGet m k = none) (h2 : k ≠ k2) :
    alistGet (m ++ [(k2, v)]) k = none := by
  induction m with
  | nil =>
    simp [alistGet]
    exact fun h => h2 h.symm
  | cons e rest ih =>
    by_cases he : e.1 = k
    · simp [alistGet, List.find?_cons, he] at h1
    · have h1b : alistGet rest k = none := by
        simpa [alistGet, List.find?_cons, he] using h1
      simpa [alistGet, List.find?_cons, he] using ih h1b

theorem aggLoop_fresh (heap : List Row) (side : List (String × Nat)) :
    ∀ bpm : List (ℚ × Nat),
      (∀ e ∈ side, alistGet bpm (round4 (rowAt heap e.2).price) = none) →
      List.Pairwise (fun a b =>
        round4 (rowAt heap a.2).price ≠ round4 (rowAt heap b.2).price) side →
      aggLoop heap bpm side =
        (heap, bpm ++ side.map (fun e => (round4 (rowAt heap e.2).price, e.2))) := by
  induction side with
  | nil =>
    intro bpm _ _
    simp [aggLoop]
  | cons e rest ih =>
    intro bpm hfresh hdist
    obtain ⟨hdh, hdt⟩ := List.pairwise_cons.mp hdist
    have hget := hfresh e (List.mem_cons_self e rest)
    have hsetid : heap.set e.2 { rowAt heap e.2 with qty := (rowAt heap e.2).qty } = heap := by
      by_cases hr : e.2 < heap.length
      · exact set_getD_self heap e.2 dfRow hr
      · exact set_oob heap e.2 _ (by omega)
    have hstep : aggLoop heap bpm (e :: rest) =
        aggLoop (heap.set e.2 { rowAt heap e.2 with qty := (rowAt heap e.2).qty })
          (bpm ++ [(round4 (rowAt heap e.2).price, e.2)]) rest := by
      simp only [aggLoop, hget]
    rw [hstep, hsetid,
      ih (bpm ++ [(round4 (rowAt heap e.2).price, e.2)])
        (fun f hf => alistGet_append_none bpm _ _ _
          (hfresh f (List.mem_cons_of_mem e hf)) (fun hx => (hdh f hf) hx.symm))
        hdt]
    simp

theorem aggTranspose_snd (bpm : List (ℚ × Nat)) :
    ∀ (heap : List Row) (result : List (String × Nat)),
      List.Pairwise (fun a b => a.2 ≠ b.2) bpm →
      List.Pairwise (fun a b => (rowAt heap a.2).key ≠ (rowAt heap b.2).key) bpm →
      (∀ e ∈ bpm, ∀ f ∈ result, f.1 ≠ (rowAt heap e.2).key) →
      (aggTranspose heap result bpm).2 =
        result ++ bpm.map (fun e => ((rowAt heap e.2).key, e.2)) := by
  induction bpm with
  | nil =>
    intro heap result _ _ _
    simp [aggTranspose]
  | cons e rest ih =>
    intro heap result hids hkeys hres
    obtain ⟨hidh, hidt⟩ := List.pairwise_cons.mp hids
    obtain ⟨hkh, hkt⟩ := List.pairwise_cons.mp hkeys
    have hobj : objSet result (rowAt heap e.2).key e.2 =
        result ++ [((rowAt heap e.2).key, e.2)] :=
      objSet_append_fresh result _ e.2 (fun f hf => hres e (List.mem_cons_self e rest) f hf)
    have hstep : aggTranspose heap result (e :: rest) =
        aggTranspose (heap.set e.2 { rowAt heap e.2 with venue := "" })
          (result ++ [((rowAt heap e.2).key, e.2)]) rest := by
      simp only [aggTranspose, hobj]
    have hrow : ∀ f ∈ rest,
        rowAt (heap.set e.2 { rowAt heap e.2 with venue := "" }) f.2 = rowAt heap f.2 :=
      fun f hf => getD_set_ne heap e.2 f.2 _ dfRow (hidh f hf)
    rw [hstep,
      ih (heap.set e.2 { rowAt heap e.2 with venue := "" })
        (result ++ [((rowAt heap e.2).key, e.2)]) hidt
        (List.Pairwise.imp_of_mem
          (fun ha hb hne => by rw [hrow _ ha, hrow _ hb]; exact hne) hkt)
        ?_]
    · rw [List.map_congr_left (fun f hf => by rw [hrow f hf])]
      simp
    · intro f hf g hg
      rcases List.mem_append.mp hg with hg | hg
      · rw [hrow f hf]
        exact hres f (List.mem_cons_of_mem e hf) g hg
      · have hgv : g = ((rowAt heap e.2).key, e.2) := by simpa using hg
        rw [hgv, hrow f hf]
        exact hkh f hf

theorem aggTranspose_fst_pq (bpm : List (ℚ × Nat)) :
    ∀ (heap : List Row) (result : List (String × Nat)) (j : Nat),
      ((aggTranspose heap result bpm).1.getD j dfRow).price = (heap.getD j dfRow).price ∧
      ((aggTranspose heap result bpm).1.getD j dfRow).qty = (heap.getD j dfRow).qty := by
  induction bpm with
  | nil =>
    intro heap result j
    exact ⟨rfl, rfl⟩
  | cons e rest ih =>
    intro heap result j
    have hstep : aggTranspose heap result (e :: rest) =
        aggTranspose (heap.set e.2 { rowAt heap e.2 with venue := "" })
          (objSet result (rowAt heap e.2).key e.2) rest := by
      simp only [aggTranspose]
    rw [hstep]
    have h2 := ih (heap.set e.2 { rowAt heap e.2 with venue := "" })
      (objSet result (rowAt heap e.2).key e.2) j
    refine ⟨h2.1.trans ?_, h2.2.trans ?_⟩
    · by_cases hj : e.2 = j
      · subst hj
        by_cases hr : e.2 < heap.length
        · rw [getD_set_self heap e.2 _ dfRow hr]
          rfl
        · rw [set_oob heap e.2 _ (by omega)]
      · rw [getD_set_ne heap e.2 j _ dfRow hj]
    · by_cases hj : e.2 = j
      · subst hj
        by_cases hr : e.2 < heap.length
        · rw [getD_set_self heap e.2 _ dfRow hr]
          rfl
        · rw [set_oob heap e.2 _ (by omega)]
      · rw [getD_set_ne heap e.2 j _ dfRow hj]

set_option maxHeartbeats 1600000 in
/-- C5: aggregation is idempotent.  On a side map whose entries are already
fully consolidated — one entry per distinct rounded price, venue tags
cleared to the aggregated marker, map keys matching the stored rows' keys —
running the aggregation again yields a map with the same list of
(price, quantity) pairs. -/
theorem c5_aggregation_idempotent (heap : List Row) (side : List (String × Nat))
    (hkeysm : ∀ e ∈ side, (rowAt heap e.2).key = e.1)
    (hmkeys : List.Pairwise (fun a b => a.1 ≠ b.1) side)
    (hven : ∀ e ∈ side, (rowAt heap e.2).venue = "")
    (hdist : List.Pairwise (fun a b =>
      round4 (rowAt heap a.2).price ≠ round4 (rowAt heap b.2).price) side) :
    ((aggregate heap side).2).map (fun e =>
        ((rowAt (aggregate heap side).1 e.2).price,
          (rowAt (aggregate heap side).1 e.2).qty)) =
      side.map (fun e => ((rowAt heap e.2).price, (rowAt heap e.2).qty)) := by
  have hloop := aggLoop_fresh heap side [] (fun e he => rfl) hdist
  have hids : List.Pairwise (fun a b => a.2 ≠ b.2)
      (side.map (fun e => (round4 (rowAt heap e.2).price, e.2))) := by
    rw [List.pairwise_map]
    refine hdist.imp ?_
    intro a b hab hide
    exact hab (by rw [hide])
  have hkeys : List.Pairwise (fun a b => (rowAt heap a.2).key ≠ (rowAt heap b.2).key)
      (side.map (fun e => (round4 (rowAt heap e.2).price, e.2))) := by
    rw [List.pairwise_map]
    refine List.Pairwise.imp_of_mem ?_ hmkeys
    intro a b ha hb hne
    rw [hkeysm a ha, hkeysm b hb]
    exact hne
  have haggEq : aggregate heap side =
      aggTranspose heap [] (side.map (fun e => (round4 (rowAt heap e.2).price, e.2))) := by
    show aggTranspose (aggLoop heap [] side).1 [] (aggLoop heap [] side).2 = _
    rw [hloop]
    rw [show ((heap, [] ++ side.map (fun e => (round4 (rowAt heap e.2).price, e.2))) :
        List Row × List (ℚ × Nat)).1 = heap from rfl]
    rw [show ((heap, [] ++ side.map (fun e => (round4 (rowAt heap e.2).price, e.2))) :
        List Row × List (ℚ × Nat)).2 =
        [] ++ side.map (fun e => (round4 (rowAt heap e.2).price, e.2)) from rfl]
    rw [List.nil_append]
  rw [haggEq]
  rw [aggTranspose_snd (side.map (fun e => (round4 (rowAt heap e.2).price, e.2)))
      heap [] hids hkeys (fun e he f hf => absurd hf (List.not_mem_nil f))]
  rw [List.nil_append]
  rw [List.map_map]
  rw [List.map_map]
  refine List.map_congr_left ?_
  intro e he
  have hpq := aggTranspose_fst_pq
    (side.map (fun e => (round4 (rowAt heap e.2).price, e.2))) heap [] e.2
  exact Prod.ext hpq.1 hpq.2

/-- Heap for the C5 witness: two already-consolidated rows. -/
def heap5 : List Row := [⟨10, 5, "", 0, 0, "k1"⟩, ⟨20, 3, "", 0, 0, "k2"⟩]

/-- Side map for the C5 witness. -/
def side5 : List (String × Nat) := [("k1", 0), ("k2", 1)]

/-- C5 witness: re-aggregating the consolidated two-level side keeps the
(price, quantity) pairs. -/
theorem c5_aggregation_idempotent_witness :
    ((aggregate heap5 side5).2).map (fun e =>
        ((rowAt (aggregate heap5 side5).1 e.2).price,
          (rowAt (aggregate heap5 side5).1 e.2).qty)) =
      side5.map (fun e => ((rowAt heap5 e.2).price, (rowAt heap5 e.2).qty)) :=
  c5_aggregation_idempotent heap5 side5 (by decide) (by decide) (by decide) (by decide)
